import Mathlib

/-
Verification development for the regrouter repository (Go): a minimal
HTTP request router built on ordered regular-expression route matching,
with a request-scoped parameter store, CORS handling and default error
handlers. The Go sources (src/main.go, src/params.go) are shallowly
embedded below: maps become association lists, the regular-expression
collaborator becomes a small backtracking matcher with anchors, capture
groups, character classes and greedy repetition, and the effects of one
dispatch (header writes, handler invocations, error-handler invocations)
become an explicit event trace. Faults (Go panics) are modelled as an
optional fault value threaded through the dispatch.
-/

set_option autoImplicit false

namespace Regrouter

/-! ## Association-list maps (model of Go string-keyed maps) -/

/-- Lookup of a key in an association list, mirroring Go map indexing
(first binding wins; `insertStr` keeps at most one binding per key). -/
def lookupStr : List (String × String) → String → Option String
  | [], _ => none
  | (k, v) :: rest, key => if k = key then some v else lookupStr rest key

/-- Insert or overwrite a binding, mirroring Go map assignment. -/
def insertStr : List (String × String) → String → String → List (String × String)
  | [], k, v => [(k, v)]
  | (k', v') :: rest, k, v =>
    if k' = k then (k, v) :: rest else (k', v') :: insertStr rest k v

@[simp]
theorem lookupStr_insertStr_self (l : List (String × String)) (k v : String) :
    lookupStr (insertStr l k v) k = some v := by
  induction l with
  | nil => simp [insertStr, lookupStr]
  | cons hd tl ih =>
    obtain ⟨k', v'⟩ := hd
    by_cases h : k' = k
    · simp [insertStr, h, lookupStr]
    · simp [insertStr, h, lookupStr, ih]

/-! ## Params (src/params.go) -/

/-- Params hold the HTTP params (src/params.go, struct Params). -/
structure Params where
  Values : List (String × String)
deriving DecidableEq, Repr

/-- GetE returns a param or error (src/params.go, Params.GetE).
The error message mirrors fmt.Errorf with a %q-quoted key. -/
def Params.GetE (p : Params) (key : String) : Except String String :=
  match lookupStr p.Values key with
  | some res => .ok res
  | none => .error ("\"" ++ key ++ "\": no such param")

/-- Get returns a param or empty string (src/params.go, Params.Get);
Go map indexing yields the zero value on a missing key. -/
def Params.Get (p : Params) (key : String) : String :=
  (lookupStr p.Values key).getD ""

/-- Set adds a param (src/params.go, Params.Set): assign, then re-read
the key and report whether it is present. -/
def Params.Set (p : Params) (key value : String) : Params × Bool :=
  let p' : Params := ⟨insertStr p.Values key value⟩
  (p', (lookupStr p'.Values key).isSome)

/-! ## Regular expressions (model of the Go regexp collaborator)

Go regexp is an external collaborator of the router; this is a small
backtracking matcher with Perl-style leftmost-first semantics (the
semantics Go documents for submatch extraction), absolute anchors,
named capture groups, character classes and greedy repetition. -/

/-- Abstract syntax of the flag-free fragment of the Go pattern
language handed to regexp.MustCompile: `caret` and `dollar` are the
begin-of-text and end-of-text anchors (inline flag groups such as the
multiline flag, which turns the dollar into a line anchor, are outside
the modelled fragment; everything proved about compiled patterns is
scoped to this fragment). -/
inductive RE where
  | eps
  | char (c : Char)
  | any
  | cls (cs : List Char) (neg : Bool)
  | seq (a b : RE)
  | alt (a b : RE)
  | star (a : RE)
  | group (idx : Nat) (nm : String) (a : RE)
  | caret
  | dollar
deriving DecidableEq, Repr

/-- Capture records: group index mapped to (start, stop) offsets. -/
abbrev Caps := List (Nat × Nat × Nat)

/-- Result of a match attempt: end offset and captures. -/
abbrev MRes := Nat × Caps

def lookupCap : Caps → Nat → Option (Nat × Nat)
  | [], _ => none
  | (i, a, b) :: rest, j => if i = j then some (a, b) else lookupCap rest j

def insertCap : Caps → Nat → Nat → Nat → Caps
  | [], i, a, b => [(i, a, b)]
  | (i', a', b') :: rest, i, a, b =>
    if i' = i then (i, a, b) :: rest else (i', a', b') :: insertCap rest i a b

/-- One backtracking match attempt at offset `pos` of `s`, in
continuation-passing style; `k` receives the offset and captures after
the current subpattern. Fuel bounds the expansion depth; it only ever
makes the matcher fail early, never succeed wrongly. Alternation tries
the left branch first and `star` is greedy (longest iteration first),
matching the leftmost-first semantics of the Go engine; an iteration of
`star` must consume input, which is how the engine avoids empty loops. -/
def mAt (s : List Char) : Nat → RE → Nat → Caps → (Nat → Caps → Option MRes) → Option MRes
  | 0, _, _, _, _ => none
  | fuel + 1, re, pos, caps, k =>
    match re with
    | .eps => k pos caps
    | .caret => if pos = 0 then k pos caps else none
    | .dollar => if pos = s.length then k pos caps else none
    | .char c =>
      match s[pos]? with
      | some c' => if c' = c then k (pos + 1) caps else none
      | none => none
    | .any =>
      match s[pos]? with
      | some c' => if c' = '\n' then none else k (pos + 1) caps
      | none => none
    | .cls cs neg =>
      match s[pos]? with
      | some c' => if (cs.contains c' != neg) then k (pos + 1) caps else none
      | none => none
    | .alt a b =>
      (mAt s fuel a pos caps k).orElse (fun _ => mAt s fuel b pos caps k)
    | .seq a b =>
      mAt s fuel a pos caps (fun pos' caps' => mAt s fuel b pos' caps' k)
    | .group i _ a =>
      mAt s fuel a pos caps (fun pos' caps' => k pos' (insertCap caps' i pos pos'))
    | .star a =>
      (mAt s fuel a pos caps (fun pos' caps' =>
        if pos < pos' then mAt s fuel (.star a) pos' caps' k else none)).orElse
        (fun _ => k pos caps)

/-- Names of the capture groups in opening order, as Go reports them
after the implicit whole-match group. -/
def RE.groupNames : RE → List String
  | .seq a b => a.groupNames ++ b.groupNames
  | .alt a b => a.groupNames ++ b.groupNames
  | .star a => a.groupNames
  | .group _ nm a => nm :: a.groupNames
  | .eps | .char _ | .any | .cls _ _ | .caret | .dollar => []

/-- Structural size of a pattern, used only to pick a generous fuel. -/
def RE.size : RE → Nat
  | .seq a b => a.size + b.size + 1
  | .alt a b => a.size + b.size + 1
  | .star a => a.size + 1
  | .group _ _ a => a.size + 1
  | .eps | .char _ | .any | .cls _ _ | .caret | .dollar => 1

/-- A compiled pattern (model of regexp.Regexp). -/
structure Rgx where
  re : RE
deriving DecidableEq, Repr

/-- SubexpNames: the empty name of the whole-match group 0 followed by
the group names in opening order. -/
def Rgx.names (r : Rgx) : List String := "" :: r.re.groupNames

/-- The substring of `s` from offset `a` (inclusive) to `b` (exclusive). -/
def strSlice (s : List Char) (a b : Nat) : String := ⟨(s.drop a).take (b - a)⟩

/-- The submatch slice Go returns: entry 0 is the whole match, entry i
is group i (empty string when the group did not participate). -/
def buildMatches (s : List Char) (p e : Nat) (caps : Caps) (n : Nat) : List String :=
  strSlice s p e :: (List.range n).map (fun i =>
    match lookupCap caps (i + 1) with
    | some (a, b) => strSlice s a b
    | none => "")

/-- FindStringSubmatch: try offsets left to right, return the first
match with its submatches; none when the pattern matches nowhere. -/
def Rgx.find (r : Rgx) (str : String) : Option (List String) :=
  let s := str.toList
  let fuel := (s.length + 2) * (r.re.size + 2)
  (List.range (s.length + 1)).findSome? (fun p =>
    (mAt s fuel r.re p [] (fun e caps => some (e, caps))).map
      (fun ec => buildMatches s p ec.1 ec.2 r.re.groupNames.length))

/-- Left half of the string-level anchoring performed by Add: in the
parse of the string made of a caret followed by the pattern, the caret
concatenates onto the FIRST top-level alternative only, because
alternation has the lowest precedence. -/
def anchorFirst : RE → RE
  | .alt a b => .alt (anchorFirst a) b
  | r => .seq .caret r

/-- Right half of the string-level anchoring performed by Add: the
appended dollar concatenates onto the LAST top-level alternative
only. -/
def anchorLast : RE → RE
  | .alt a b => .alt a (anchorLast b)
  | r => .seq r .dollar

/-- Whether the registered pattern is a top-level alternation (written
without enclosing parentheses), the case in which the two anchors do
not protect the middle of the pattern. -/
def RE.isAlt : RE → Bool
  | .alt _ _ => true
  | _ => false

/-- Pattern built by regexp.MustCompile in Add (src/main.go line 128):
the parse of the registered pattern with a caret prepended and a dollar
appended AT THE STRING LEVEL, so each anchor attaches to the outermost
first (respectively last) top-level alternative, as in the Go parser
where alternation binds loosest. The modelled pattern language is
flag-free (no inline groups such as the multiline flag), so this
captures registrable flag-free patterns. -/
def compile (p : RE) : Rgx := ⟨anchorLast (anchorFirst p)⟩

/-- The pattern matching a literal character sequence. -/
def RE.ofList : List Char → RE
  | [] => .eps
  | c :: cs => .seq (.char c) (RE.ofList cs)

/-- The pattern matching a literal string. -/
def RE.lit (s : String) : RE := RE.ofList s.toList

/-- Greedy one-or-more repetition, as in `[0-9]+`. -/
def RE.plus (a : RE) : RE := .seq a (.star a)

/-- The character class `[0-9]`. -/
def digitCls : RE := .cls "0123456789".toList false

/-! ## Routes, requests and the dispatch loop (src/main.go) -/

/-- The parts of an http.Request the router reads: r.Method and r.URL.Path. -/
structure Request where
  method : String
  path : String
deriving DecidableEq, Repr

/-- Route is the http routes (src/main.go, struct Route); the opaque
http.HandlerFunc is represented by a numeric handler reference. -/
structure Route where
  method : String
  regex : Rgx
  handler : Nat
  CORS : Bool
deriving DecidableEq, Repr

/-- The Handlers bundle reduced to its dispatch-relevant observable:
which status codes have an entry in the ErrorCodes map. Invoking the
functions themselves is recorded in the event trace. -/
structure HandlersM where
  errorCodes : List Nat
deriving DecidableEq, Repr

/-- The ErrorCodes keys installed by New (src/main.go lines 45-59). -/
def defaultHandlers : HandlersM := ⟨[404, 405, 500]⟩

/-- Observable effects of one dispatch on the response writer and the
Handlers bundle, in order of occurrence. -/
inductive Event where
  | corsCall (methods : List String)
  | writeHeader (code : Nat)
  | handlerCall (idx h : Nat) (ps : Params)
  | errorCall (code : Nat) (payload : List (String × String))
deriving DecidableEq, Repr

/-- strings.ToUpper restricted to the ASCII method strings the router
compares. -/
def goToUpper (s : String) : String := ⟨s.toList.map Char.toUpper⟩

/-- strings.EqualFold restricted to ASCII. -/
def eqFold (a b : String) : Bool := goToUpper a == goToUpper b

/-- strings.Join with the ", " separator used throughout main.go. -/
def joinCS (l : List String) : String := String.intercalate ", " l

/-- The key the population step derives for capture group index i with
reported name nm: the decimal index when the name is empty, else the
name (the bool-keyed map literal of src/main.go lines 99-102). -/
def paramKey (i : Nat) (nm : String) : String :=
  if nm.length = 0 then toString i else nm

/-- Parameter population (src/main.go lines 98-103): for each index and
name reported by SubexpNames, store the corresponding submatch under
the derived key. -/
def populate (names ms : List String) : Params :=
  names.enum.foldl (fun p iv => (p.Set (paramKey iv.1 iv.2) (ms.getD iv.1 "")).1) ⟨[]⟩

/-- Lookup and invocation of an ErrorCodes entry: a present key records
one invocation with the payload; an absent key means the Go code calls
a nil map entry, which panics. -/
def invokeError (hs : HandlersM) (code : Nat) (payload : List (String × String)) :
    List Event × Option String :=
  if code ∈ hs.errorCodes then ([.errorCall code payload], none)
  else ([], some "runtime error: invalid memory address or nil pointer dereference")

/-- The route loop of Handler (src/main.go lines 81-109) over routes
paired with their registration positions, carrying the methods and
allowed accumulators. A dispatch returns the events of that iteration
and the fault the invoked handler raises, if any ( .inl ); an exhausted
loop returns the final accumulators ( .inr ). -/
def dispatchLoop (req : Request) (hf : Nat → Params → Option String) :
    List (Nat × Route) → List String → List String →
    (List Event × Option String) ⊕ (List String × List String)
  | [], methods, allowed => .inr (methods, allowed)
  | (i, route) :: rest, methods, allowed =>
    match route.regex.find req.path with
    | none => dispatchLoop req hf rest methods allowed
    | some ms =>
      if route.CORS then
        let methods' := methods ++ [route.method]
        if eqFold req.method route.method then
          let ps := populate route.regex.names ms
          .inl ([.corsCall methods', .handlerCall i route.handler ps], hf route.handler ps)
        else
          dispatchLoop req hf rest methods' (allowed ++ [route.method])
      else
        let ps := populate route.regex.names ms
        .inl ([.handlerCall i route.handler ps], hf route.handler ps)

/-- The body of Handler (src/main.go lines 74-122): run the loop, then
the CORS no-content, 405 and 404 fallbacks in that order. `hf` gives
the fault, if any, each handler raises on the parameters it receives. -/
def dispatchBody (hs : HandlersM) (req : Request) (hf : Nat → Params → Option String)
    (routes : List Route) : List Event × Option String :=
  match dispatchLoop req hf routes.enum [] [] with
  | .inl r => r
  | .inr (methods, allowed) =>
    if methods.length > 0 then ([.corsCall methods, .writeHeader 204], none)
    else if allowed.length > 0 then invokeError hs 405 [("allowed", joinCS allowed)]
    else invokeError hs 404 []

/-- Handler with its deferred recover (src/main.go lines 66-72): a fault
escaping the body is converted into one 500 invocation carrying the
fault under the exception key; with no 500 entry the recover itself
calls a nil map entry and the request fails with a fresh fault. -/
def handlerRun (hs : HandlersM) (req : Request) (hf : Nat → Params → Option String)
    (routes : List Route) : List Event × Option String :=
  let b := dispatchBody hs req hf routes
  match b.2 with
  | none => b
  | some e =>
    if 500 ∈ hs.errorCodes then (b.1 ++ [.errorCall 500 [("exception", e)]], none)
    else (b.1, some "runtime error: invalid memory address or nil pointer dereference")

/-- RegRouter is the RegRouter instance (src/main.go, struct RegRouter);
the context key CTX carries no information and is omitted. -/
structure RegRouter where
  Routes : List Route
  Handlers : HandlersM
deriving DecidableEq, Repr

/-- New returns a RegRouter instance (src/main.go lines 33-62). -/
def New : RegRouter := ⟨[], defaultHandlers⟩

/-- Add adds a route to the RegRouter (src/main.go lines 127-129):
uppercase the method, anchor and compile the pattern, append. -/
def RegRouter.Add (rr : RegRouter) (method : String) (pattern : RE)
    (handler : Nat) (cors : Bool) : RegRouter :=
  { rr with Routes := rr.Routes ++ [⟨goToUpper method, compile pattern, handler, cors⟩] }

/-- The handler reference Static registers. -/
def staticHandlerId : Nat := 0

set_option linter.unusedVariables false in
/-- Static serves static files (src/main.go lines 132-139): it registers
its closure as a GET route with cors set to false; the base path only
feeds the closure, modelled by staticHandlerEffects below. -/
def RegRouter.Static (rr : RegRouter) (path : String) (pattern : RE) : RegRouter :=
  rr.Add "GET" pattern staticHandlerId false

/-- Effects of the closure Static registers (src/main.go lines 133-138):
on a filepath parameter it rewrites the path and serves from the base
directory; on a GetE error it does nothing at all. -/
def staticHandlerEffects (path : String) (ps : Params) : List String :=
  match ps.GetE "filepath" with
  | .ok file => ["serve " ++ path ++ " /" ++ file]
  | .error _ => []

/-! ## Default handler bodies (src/main.go lines 37-58) -/

/-- Headers set by the default CORS writer (src/main.go lines 37-43). -/
def defaultCORSHeaders (methods : List String) (origin : String) :
    List (String × String) :=
  [("Access-Control-Allow-Origin", origin),
   ("Access-Control-Allow-Methods", joinCS methods),
   ("Access-Control-Allow-Credentials", "true"),
   ("Access-Control-Allow-Headers",
    "Accept, Content-Type, Content-Length, Accept-Encoding, X-CSRF-Token, Authorization")]

/-- Headers set by the default 405 handler (src/main.go lines 50-54): the
Allow header from the allowed payload entry; a missing entry makes the
Go type assertion panic, modelled as none. -/
def default405Headers (data : List (String × String)) : Option (List (String × String)) :=
  (lookupStr data "allowed").map (fun a => [("Allow", a)])

/-! ## Derived predicates about one route and one request -/

/-- The route pattern matches the request path (len(matches) > 0). -/
def hits (req : Request) (r : Route) : Bool := (r.regex.find req.path).isSome

/-- The loop passes over this matching route without dispatching:
exactly the CORS routes whose method differs from the request method. -/
def skipped (req : Request) (r : Route) : Bool := r.CORS && !eqFold req.method r.method

/-- Registration positions of the handler invocations in a trace. -/
def handlerIdxs (tr : List Event) : List Nat :=
  tr.filterMap (fun e => match e with | .handlerCall i _ _ => some i | _ => none)

/-- Number of error-handler invocations with the given code in a trace. -/
def countErrorCalls (code : Nat) (tr : List Event) : Nat :=
  (tr.filter (fun e => match e with | .errorCall c _ => c == code | _ => false)).length

/-! ## Structural lemmas about the dispatch loop -/

@[simp]
theorem countErrorCalls_nil (c : Nat) : countErrorCalls c [] = 0 := rfl

@[simp]
theorem countErrorCalls_append (c : Nat) (a b : List Event) :
    countErrorCalls c (a ++ b) = countErrorCalls c a + countErrorCalls c b := by
  simp [countErrorCalls, List.filter_append]

@[simp]
theorem handlerIdxs_nil : handlerIdxs [] = [] := rfl

@[simp]
theorem handlerIdxs_append (a b : List Event) :
    handlerIdxs (a ++ b) = handlerIdxs a ++ handlerIdxs b := by
  simp [handlerIdxs]

/-- An exhausted loop over routes that are all either non-matching or
passed over accumulates the methods of the matching routes, in
registration order, into both accumulators at once. -/
theorem dispatchLoop_exhaust (req : Request) (hf : Nat → Params → Option String) :
    ∀ (routes : List Route) (n : Nat) (ms al : List String),
    (∀ r ∈ routes, hits req r = true → skipped req r = true) →
    dispatchLoop req hf (List.enumFrom n routes) ms al =
      .inr (ms ++ (routes.filter (hits req)).map Route.method,
            al ++ (routes.filter (hits req)).map Route.method) := by
  intro routes
  induction routes with
  | nil => intro n ms al _; simp [dispatchLoop, List.enumFrom]
  | cons r rest ih =>
    intro n ms al hall
    have hrest : ∀ r' ∈ rest, hits req r' = true → skipped req r' = true :=
      fun r' hm => hall r' (by simp [hm])
    simp only [List.enumFrom]
    cases hfind : r.regex.find req.path with
    | none =>
      have hh : hits req r = false := by simp [hits, hfind]
      simp only [dispatchLoop, hfind]
      rw [ih (n + 1) ms al hrest]
      simp [List.filter_cons, hh]
    | some m0 =>
      have hh : hits req r = true := by simp [hits, hfind]
      have hsk := hall r (by simp) hh
      simp only [skipped, Bool.and_eq_true, Bool.not_eq_eq_eq_not, Bool.not_true] at hsk
      simp only [dispatchLoop, hfind, hsk.1, if_true, hsk.2, Bool.false_eq_true, if_false]
      rw [ih (n + 1) (ms ++ [r.method]) (al ++ [r.method]) hrest]
      simp [List.filter_cons, hh]

/-- A loop iteration that dispatches produces no error-handler calls. -/
theorem dispatchLoop_inl_count (req : Request) (hf : Nat → Params → Option String) :
    ∀ (l : List (Nat × Route)) (ms al : List String) (tr : List Event) (f : Option String),
    dispatchLoop req hf l ms al = .inl (tr, f) → ∀ c, countErrorCalls c tr = 0 := by
  intro l
  induction l with
  | nil => intro ms al tr f h c; simp [dispatchLoop] at h
  | cons p rest ih =>
    intro ms al tr f h c
    obtain ⟨i, route⟩ := p
    simp only [dispatchLoop] at h
    cases hfind : route.regex.find req.path with
    | none =>
      rw [hfind] at h
      exact ih ms al tr f h c
    | some m0 =>
      rw [hfind] at h
      dsimp only at h
      by_cases hc : route.CORS
      · rw [if_pos hc] at h
        by_cases he : eqFold req.method route.method
        · rw [if_pos he] at h
          simp only [Sum.inl.injEq, Prod.mk.injEq] at h
          obtain ⟨htr, -⟩ := h
          subst htr
          simp [countErrorCalls]
        · rw [if_neg he] at h
          exact ih _ _ tr f h c
      · rw [if_neg hc] at h
        simp only [Sum.inl.injEq, Prod.mk.injEq] at h
        obtain ⟨htr, -⟩ := h
        subst htr
        simp [countErrorCalls]

/-- When the loop exhausts, the two accumulators have received one and
the same suffix: a method is recorded as allowed exactly when it was
recorded as a CORS method. -/
theorem dispatchLoop_inr_append (req : Request) (hf : Nat → Params → Option String) :
    ∀ (l : List (Nat × Route)) (ms al ms' al' : List String),
    dispatchLoop req hf l ms al = .inr (ms', al') →
    ∃ t, ms' = ms ++ t ∧ al' = al ++ t := by
  intro l
  induction l with
  | nil =>
    intro ms al ms' al' h
    simp only [dispatchLoop, Sum.inr.injEq, Prod.mk.injEq] at h
    exact ⟨[], by simp [h.1.symm, h.2.symm]⟩
  | cons p rest ih =>
    intro ms al ms' al' h
    obtain ⟨i, route⟩ := p
    simp only [dispatchLoop] at h
    cases hfind : route.regex.find req.path with
    | none =>
      rw [hfind] at h
      exact ih ms al ms' al' h
    | some m0 =>
      rw [hfind] at h
      dsimp only at h
      by_cases hc : route.CORS
      · rw [if_pos hc] at h
        by_cases he : eqFold req.method route.method
        · rw [if_pos he] at h; simp at h
        · rw [if_neg he] at h
          obtain ⟨t, ht1, ht2⟩ := ih _ _ ms' al' h
          exact ⟨route.method :: t, by simp [ht1, ht2]⟩
      · rw [if_neg hc] at h; simp at h

/-- Any handler invocation the loop records is at a position no later
than that of the first matching route the loop does not pass over. -/
theorem dispatchLoop_idx_le (req : Request) (hf : Nat → Params → Option String) :
    ∀ (routes : List Route) (n k : Nat) (r : Route) (ms al : List String)
      (tr : List Event) (f : Option String),
    routes[k]? = some r → hits req r = true → skipped req r = false →
    dispatchLoop req hf (List.enumFrom n routes) ms al = .inl (tr, f) →
    ∀ x ∈ handlerIdxs tr, x ≤ n + k := by
  intro routes
  induction routes with
  | nil => intro n k r ms al tr f hk; simp at hk
  | cons r0 rest ih =>
    intro n k r ms al tr f hk hhit hns h x hx
    simp only [List.enumFrom, dispatchLoop] at h
    cases hfind : r0.regex.find req.path with
    | none =>
      rw [hfind] at h
      cases k with
      | zero =>
        simp at hk
        subst hk
        simp [hits, hfind] at hhit
      | succ k' =>
        simp only [List.getElem?_cons_succ] at hk
        have := ih (n + 1) k' r ms al tr f hk hhit hns h x hx
        omega
    | some m0 =>
      rw [hfind] at h
      dsimp only at h
      by_cases hc : r0.CORS
      · rw [if_pos hc] at h
        by_cases he : eqFold req.method r0.method
        · rw [if_pos he] at h
          simp only [Sum.inl.injEq, Prod.mk.injEq] at h
          obtain ⟨htr, -⟩ := h
          subst htr
          simp only [handlerIdxs, List.filterMap] at hx
          simp [handlerIdxs] at hx
          omega
        · rw [if_neg he] at h
          cases k with
          | zero =>
            simp at hk
            subst hk
            simp [skipped, hc, he] at hns
          | succ k' =>
            simp only [List.getElem?_cons_succ] at hk
            have := ih (n + 1) k' r _ _ tr f hk hhit hns h x hx
            omega
      · rw [if_neg hc] at h
        simp only [Sum.inl.injEq, Prod.mk.injEq] at h
        obtain ⟨htr, -⟩ := h
        subst htr
        simp [handlerIdxs] at hx
        omega

/-- The body of one request produces no 405 invocation: the 405 branch
is guarded by an empty methods accumulator, which forces an empty
allowed accumulator as well. -/
theorem dispatchBody_count405 (hs : HandlersM) (req : Request)
    (hf : Nat → Params → Option String) (routes : List Route) :
    countErrorCalls 405 (dispatchBody hs req hf routes).1 = 0 := by
  unfold dispatchBody
  cases h : dispatchLoop req hf routes.enum [] [] with
  | inl p =>
    obtain ⟨tr, f⟩ := p
    exact dispatchLoop_inl_count req hf _ _ _ _ _ h 405
  | inr p =>
    obtain ⟨ms', al'⟩ := p
    obtain ⟨t, ht1, ht2⟩ := dispatchLoop_inr_append req hf _ _ _ _ _ h
    simp only [List.nil_append] at ht1 ht2
    have heq : al' = ms' := by rw [ht1, ht2]
    subst heq
    dsimp only
    by_cases hm : al'.length > 0
    · rw [if_pos hm]
      simp [countErrorCalls]
    · rw [if_neg hm, if_neg hm]
      simp only [invokeError]
      split
      · simp [countErrorCalls]
      · simp [countErrorCalls]

/-- The body of one request produces no 500 invocation. -/
theorem dispatchBody_count500 (hs : HandlersM) (req : Request)
    (hf : Nat → Params → Option String) (routes : List Route) :
    countErrorCalls 500 (dispatchBody hs req hf routes).1 = 0 := by
  unfold dispatchBody
  cases h : dispatchLoop req hf routes.enum [] [] with
  | inl p =>
    obtain ⟨tr, f⟩ := p
    exact dispatchLoop_inl_count req hf _ _ _ _ _ h 500
  | inr p =>
    obtain ⟨ms', al'⟩ := p
    dsimp only
    by_cases hm : ms'.length > 0
    · simp [hm, countErrorCalls]
    · by_cases ha : al'.length > 0
      · simp only [hm, if_false, ha, if_true]
        simp only [invokeError]
        split
        · simp [countErrorCalls]
        · simp [countErrorCalls]
      · simp only [hm, if_false, ha, invokeError]
        split
        · simp [countErrorCalls]
        · simp [countErrorCalls]

/-- Handler invocations only come from the loop: the recover step can
append an error-handler call but never a handler call. -/
theorem handlerIdxs_handlerRun (hs : HandlersM) (req : Request)
    (hf : Nat → Params → Option String) (routes : List Route) :
    handlerIdxs (handlerRun hs req hf routes).1 =
      handlerIdxs (dispatchBody hs req hf routes).1 := by
  unfold handlerRun
  cases hb : (dispatchBody hs req hf routes).2 with
  | none => simp [hb]
  | some e =>
    simp only [hb]
    split
    · simp [handlerIdxs]
    · simp

/-- Any handler invocation of the body is at a position no later than
that of a matching route the loop does not pass over. -/
theorem handlerIdxs_dispatchBody_le (hs : HandlersM) (req : Request)
    (hf : Nat → Params → Option String) (routes : List Route) (k : Nat) (r : Route)
    (hk : routes[k]? = some r) (hhit : hits req r = true) (hns : skipped req r = false) :
    ∀ x ∈ handlerIdxs (dispatchBody hs req hf routes).1, x ≤ k := by
  unfold dispatchBody
  cases h : dispatchLoop req hf routes.enum [] [] with
  | inl p =>
    obtain ⟨tr, f⟩ := p
    dsimp only
    intro x hx
    have := dispatchLoop_idx_le req hf routes 0 k r [] [] tr f hk hhit hns h x hx
    omega
  | inr p =>
    obtain ⟨ms', al'⟩ := p
    dsimp only
    intro x hx
    by_cases hm : ms'.length > 0
    · rw [if_pos hm] at hx
      simp [handlerIdxs] at hx
    · rw [if_neg hm] at hx
      by_cases ha : al'.length > 0
      · rw [if_pos ha] at hx
        simp only [invokeError] at hx
        split at hx <;> simp [handlerIdxs] at hx
      · rw [if_neg ha] at hx
        simp only [invokeError] at hx
        split at hx <;> simp [handlerIdxs] at hx

/-! ## Concrete fixtures used in witnesses and counterexamples -/

/-- A handler behavior that never faults. -/
def hfNone : Nat → Params → Option String := fun _ _ => none

/-- A handler behavior where handler 11 panics with the value boom. -/
def hfBoom : Nat → Params → Option String := fun h _ => if h = 11 then some "boom" else none

/-- The literal route pattern /a. -/
def litA : RE := RE.lit "/a"

/-! ## Claims about dispatch outcomes -/

/-- Claim C9: a request whose path no registered pattern matches is
answered by exactly one invocation of the status-404 handler, with an
empty payload, provided a 404 entry is installed as in the default
bundle. -/
theorem C9_no_match_404 (hs : HandlersM) (req : Request)
    (hf : Nat → Params → Option String) (routes : List Route)
    (h404 : 404 ∈ hs.errorCodes)
    (hnm : ∀ r ∈ routes, hits req r = false) :
    handlerRun hs req hf routes = ([.errorCall 404 []], none) := by
  have hex := dispatchLoop_exhaust req hf routes 0 [] []
    (fun r hr hh => by rw [hnm r hr] at hh; cases hh)
  have hfil : routes.filter (hits req) = [] := by
    rw [List.filter_eq_nil_iff]
    intro r hr
    simp [hnm r hr]
  rw [hfil] at hex
  simp only [List.map_nil, List.append_nil] at hex
  unfold handlerRun dispatchBody
  rw [show routes.enum = List.enumFrom 0 routes from rfl, hex]
  simp [invokeError, h404]

/-- Witness for C9 at a concrete route list and request. -/
theorem C9_witness :
    handlerRun defaultHandlers ⟨"GET", "/zzz"⟩ hfNone [⟨"POST", compile litA, 10, true⟩] =
      ([.errorCall 404 []], none) :=
  C9_no_match_404 defaultHandlers ⟨"GET", "/zzz"⟩ hfNone
    [⟨"POST", compile litA, 10, true⟩] (by decide) (by decide)

/-- Claim C5: with a status-500 entry installed, a fault raised inside
the dispatch body is intercepted by the recover boundary and turned
into exactly one invocation of the status-500 handler carrying the
fault under the exception key, and the caller of dispatch observes no
fault. -/
theorem C5_recover_500 (hs : HandlersM) (req : Request)
    (hf : Nat → Params → Option String) (routes : List Route) (e : String)
    (h500 : 500 ∈ hs.errorCodes)
    (hfault : (dispatchBody hs req hf routes).2 = some e) :
    handlerRun hs req hf routes =
      ((dispatchBody hs req hf routes).1 ++ [.errorCall 500 [("exception", e)]], none)
    ∧ countErrorCalls 500 (handlerRun hs req hf routes).1 = 1 := by
  have h1 : handlerRun hs req hf routes =
      ((dispatchBody hs req hf routes).1 ++ [.errorCall 500 [("exception", e)]], none) := by
    unfold handlerRun
    simp [hfault, h500]
  refine ⟨h1, ?_⟩
  rw [h1]
  dsimp only
  rw [countErrorCalls_append, dispatchBody_count500 hs req hf routes]
  simp [countErrorCalls]

/-- Witness for C5: a faulting handler on a matched route under the
default bundle yields the handler call followed by one 500 call. -/
theorem C5_witness :
    handlerRun defaultHandlers ⟨"GET", "/a"⟩ hfBoom [⟨"GET", compile litA, 11, false⟩] =
      ((dispatchBody defaultHandlers ⟨"GET", "/a"⟩ hfBoom [⟨"GET", compile litA, 11, false⟩]).1
        ++ [.errorCall 500 [("exception", "boom")]], none)
    ∧ countErrorCalls 500 (handlerRun defaultHandlers ⟨"GET", "/a"⟩ hfBoom
        [⟨"GET", compile litA, 11, false⟩]).1 = 1 :=
  C5_recover_500 defaultHandlers ⟨"GET", "/a"⟩ hfBoom
    [⟨"GET", compile litA, 11, false⟩] "boom" (by decide) (by decide)

/-- Claim C2 counterexample: the path is matched by exactly one route,
it is non-CORS and its method differs from the request method, no route
method matches and no CORS route matches; the claim requires a 405
invocation, but dispatch invokes that route handler instead and the
405 handler is never called. -/
theorem C2_counterexample :
    hits ⟨"GET", "/a"⟩ ⟨"POST", compile litA, 7, false⟩ = true
    ∧ Route.CORS ⟨"POST", compile litA, 7, false⟩ = false
    ∧ eqFold "GET" "POST" = false
    ∧ handlerRun defaultHandlers ⟨"GET", "/a"⟩ hfNone [⟨"POST", compile litA, 7, false⟩] =
        ([.handlerCall 0 7 ⟨[("0", "/a")]⟩], none)
    ∧ countErrorCalls 405 (handlerRun defaultHandlers ⟨"GET", "/a"⟩ hfNone
        [⟨"POST", compile litA, 7, false⟩]).1 = 0 := by
  decide

/-- Claim C2 amended: dispatch never invokes the status-405 handler on
any input at all — the allowed accumulator only ever grows together
with the methods accumulator, so the no-content CORS branch always
preempts the 405 branch, and a matching non-CORS route is dispatched
regardless of its method; separately, the default 405 handler does set
the Allow response header to the allowed payload entry it is given. -/
theorem C2_dead_405 :
    (∀ (hs : HandlersM) (req : Request) (hf : Nat → Params → Option String)
      (routes : List Route), countErrorCalls 405 (handlerRun hs req hf routes).1 = 0)
    ∧ (∀ a : String, default405Headers [("allowed", a)] = some [("Allow", a)]) := by
  constructor
  · intro hs req hf routes
    unfold handlerRun
    cases hb : (dispatchBody hs req hf routes).2 with
    | none =>
      simp only [hb]
      exact dispatchBody_count405 hs req hf routes
    | some e =>
      simp only [hb]
      split
      · dsimp only
        rw [countErrorCalls_append, dispatchBody_count405 hs req hf routes]
        simp [countErrorCalls]
      · dsimp only
        exact dispatchBody_count405 hs req hf routes
  · intro a
    simp [default405Headers, lookupStr]

/-- Claim C3 counterexample: the path is matched by a CORS route and by
no route with the request method, which by the claim should yield the
CORS writer call and a 204; but a later non-CORS route also matches the
path and is dispatched instead. -/
theorem C3_counterexample :
    hits ⟨"GET", "/a"⟩ ⟨"POST", compile litA, 10, true⟩ = true
    ∧ Route.CORS ⟨"POST", compile litA, 10, true⟩ = true
    ∧ eqFold "GET" "POST" = false
    ∧ eqFold "GET" "PUT" = false
    ∧ handlerRun defaultHandlers ⟨"GET", "/a"⟩ hfNone
        [⟨"POST", compile litA, 10, true⟩, ⟨"PUT", compile litA, 12, false⟩] =
      ([.handlerCall 1 12 ⟨[("0", "/a")]⟩], none) := by
  decide

/-- Claim C3 amended: when at least one route matches the path and
every route matching the path is CORS-enabled with a method differing
from the request method, dispatch invokes the CORS writer with the
methods of the matching routes in registration order, duplicates
preserved, and then writes status 204; the default CORS writer sets
Access-Control-Allow-Methods to exactly that list joined comma-space.
The extra condition that no non-CORS route matches the path is needed:
a matching non-CORS route is dispatched instead, whatever its method
(see the counterexample). -/
theorem C3_all_cors_no_content (hs : HandlersM) (req : Request)
    (hf : Nat → Params → Option String) (routes : List Route) (origin : String)
    (hall : ∀ r ∈ routes, hits req r = true → skipped req r = true)
    (hex : ∃ r ∈ routes, hits req r = true) :
    handlerRun hs req hf routes =
      ([.corsCall ((routes.filter (hits req)).map Route.method), .writeHeader 204], none)
    ∧ lookupStr (defaultCORSHeaders ((routes.filter (hits req)).map Route.method) origin)
        "Access-Control-Allow-Methods"
      = some (joinCS ((routes.filter (hits req)).map Route.method)) := by
  have hx := dispatchLoop_exhaust req hf routes 0 [] [] hall
  simp only [List.nil_append] at hx
  have hne : ((routes.filter (hits req)).map Route.method).length > 0 := by
    obtain ⟨r, hr, hh⟩ := hex
    have hmem : r.method ∈ (routes.filter (hits req)).map Route.method :=
      List.mem_map_of_mem _ (List.mem_filter.mpr ⟨hr, hh⟩)
    exact List.length_pos.mpr (List.ne_nil_of_mem hmem)
  constructor
  · unfold handlerRun dispatchBody
    rw [show routes.enum = List.enumFrom 0 routes from rfl, hx]
    dsimp only
    rw [if_pos hne]
  · simp [defaultCORSHeaders, lookupStr]

/-- Witness for C3 at two CORS routes sharing the path. -/
theorem C3_witness :
    handlerRun defaultHandlers ⟨"GET", "/a"⟩ hfNone
        [⟨"POST", compile litA, 10, true⟩, ⟨"PUT", compile litA, 13, true⟩] =
      ([.corsCall ["POST", "PUT"], .writeHeader 204], none)
    ∧ lookupStr (defaultCORSHeaders ["POST", "PUT"] "http://x")
        "Access-Control-Allow-Methods" = some "POST, PUT" := by
  have h := C3_all_cors_no_content defaultHandlers ⟨"GET", "/a"⟩ hfNone
    [⟨"POST", compile litA, 10, true⟩, ⟨"PUT", compile litA, 13, true⟩] "http://x"
    (by decide) (by decide)
  exact ⟨h.1.trans (by decide), h.2.trans (by decide)⟩

/-- Claim C1 counterexample: two routes both match the request path,
yet the handler invoked is that of the second-registered route: the
first is CORS-enabled with a differing method and the loop passes over
it, so registration order alone does not determine the dispatched
handler regardless of methods. -/
theorem C1_counterexample :
    hits ⟨"GET", "/a"⟩ ⟨"POST", compile litA, 10, true⟩ = true
    ∧ hits ⟨"GET", "/a"⟩ ⟨"GET", compile litA, 11, false⟩ = true
    ∧ handlerIdxs (handlerRun defaultHandlers ⟨"GET", "/a"⟩ hfNone
        [⟨"POST", compile litA, 10, true⟩, ⟨"GET", compile litA, 11, false⟩]).1 = [1] := by
  decide

/-- Claim C1 amended: whenever some route at position k matches the
path and is not passed over (it is non-CORS, or its method equals the
request method case-insensitively), no route registered after position
k is ever invoked as the dispatched handler; a matching route may be
passed over exactly when it is CORS-enabled with a differing method, in
which case a later matching route can be dispatched (see the
counterexample). -/
theorem C1_first_unskipped_dispatch (hs : HandlersM) (req : Request)
    (hf : Nat → Params → Option String) (routes : List Route)
    (k j : Nat) (r : Route)
    (hk : routes[k]? = some r) (hhit : hits req r = true) (hns : skipped req r = false)
    (hkj : k < j) :
    (handlerIdxs (handlerRun hs req hf routes).1).count j = 0 := by
  rw [handlerIdxs_handlerRun hs req hf routes]
  rw [List.count_eq_zero]
  intro hj
  have := handlerIdxs_dispatchBody_le hs req hf routes k r hk hhit hns j hj
  omega

/-- Witness for C1: with two non-CORS routes on the same path, the
second is never invoked. -/
theorem C1_witness :
    (handlerIdxs (handlerRun defaultHandlers ⟨"GET", "/a"⟩ hfNone
        [⟨"GET", compile litA, 20, false⟩, ⟨"GET", compile litA, 21, false⟩]).1).count 1 = 0 :=
  C1_first_unskipped_dispatch defaultHandlers ⟨"GET", "/a"⟩ hfNone
    [⟨"GET", compile litA, 20, false⟩, ⟨"GET", compile litA, 21, false⟩]
    0 1 ⟨"GET", compile litA, 20, false⟩ (by decide) (by decide) (by decide) (by decide)

/-! ## Basic lemmas about the association-list map -/

@[simp]
theorem lookupStr_insertStr_ne (l : List (String × String)) (k k' v : String)
    (h : k ≠ k') : lookupStr (insertStr l k v) k' = lookupStr l k' := by
  induction l with
  | nil => simp [insertStr, lookupStr, h]
  | cons hd tl ih =>
    obtain ⟨k0, v0⟩ := hd
    by_cases h0 : k0 = k
    · subst h0
      simp [insertStr, lookupStr, h]
    · simp only [insertStr, if_neg h0, lookupStr]
      by_cases h1 : k0 = k'
      · simp [h1]
      · simp [h1, ih]

/-! ## Claims about the parameter store -/

/-- Claim C7: on an absent key the strict accessor GetE returns a
failure whose message references that key, the lenient accessor Get
returns the empty string, and for every key and value a Set followed by
a Get returns the value just set, with Set reporting true. -/
theorem C7_params_access :
    (∀ (p : Params) (k : String), lookupStr p.Values k = none →
      p.GetE k = .error ("\"" ++ k ++ "\": no such param") ∧ p.Get k = "")
    ∧ (∀ (p : Params) (k v : String),
      (p.Set k v).2 = true ∧ ((p.Set k v).1).Get k = v) := by
  constructor
  · intro p k h
    simp [Params.GetE, Params.Get, h]
  · intro p k v
    simp [Params.Set, Params.Get]

/-- Witness for C7 at a concrete store and key. -/
theorem C7_witness :
    Params.GetE ⟨[]⟩ "id" = .error ("\"id\": no such param")
    ∧ Params.Get ⟨[]⟩ "id" = ""
    ∧ (Params.Set ⟨[("a", "1")]⟩ "id" "42").2 = true
    ∧ ((Params.Set ⟨[("a", "1")]⟩ "id" "42").1).Get "id" = "42" :=
  ⟨(C7_params_access.1 ⟨[]⟩ "id" (by decide)).1,
   (C7_params_access.1 ⟨[]⟩ "id" (by decide)).2,
   (C7_params_access.2 ⟨[("a", "1")]⟩ "id" "42").1,
   (C7_params_access.2 ⟨[("a", "1")]⟩ "id" "42").2⟩

/-- Claim C10: the lenient accessor cannot distinguish a key stored
with the empty string from an absent key, both lookups returning the
empty string, while the strict accessor succeeds on the former and
fails on the latter. -/
theorem C10_get_indistinguishable (s s' : Params) (k : String)
    (h1 : lookupStr s.Values k = some "")
    (h2 : lookupStr s'.Values k = none) :
    s.Get k = s'.Get k ∧ s.GetE k = .ok ""
    ∧ s'.GetE k = .error ("\"" ++ k ++ "\": no such param") := by
  refine ⟨?_, ?_, ?_⟩ <;> simp [Params.Get, Params.GetE, h1, h2]

/-- Witness for C10 at a concrete pair of stores. -/
theorem C10_witness :
    Params.Get ⟨[("a", "")]⟩ "a" = Params.Get ⟨[]⟩ "a"
    ∧ Params.GetE ⟨[("a", "")]⟩ "a" = .ok ""
    ∧ Params.GetE ⟨[]⟩ "a" = .error ("\"a\": no such param") :=
  C10_get_indistinguishable ⟨[("a", "")]⟩ ⟨[]⟩ "a" (by decide) (by decide)

/-- Claim C8: Static registers a route with method GET and the CORS
flag off, and the closure it registers does nothing at all when the
parameter store has no filepath key. -/
theorem C8_static_noop :
    (∀ (rr : RegRouter) (path : String) (pattern : RE),
      (rr.Static path pattern).Routes =
        rr.Routes ++ [⟨"GET", compile pattern, staticHandlerId, false⟩])
    ∧ (∀ (path : String) (ps : Params), lookupStr ps.Values "filepath" = none →
      staticHandlerEffects path ps = []) := by
  constructor
  · intro rr path pattern
    have h : goToUpper "GET" = "GET" := by decide
    simp [RegRouter.Static, RegRouter.Add, h]
  · intro path ps h
    simp [staticHandlerEffects, Params.GetE, h]

/-- Witness for C8 at a concrete router and store. -/
theorem C8_witness :
    (RegRouter.Static ⟨[], defaultHandlers⟩ "/srv" (RE.lit "/a")).Routes =
      [⟨"GET", compile (RE.lit "/a"), staticHandlerId, false⟩]
    ∧ staticHandlerEffects "/srv" ⟨[("id", "42")]⟩ = [] :=
  ⟨C8_static_noop.1 ⟨[], defaultHandlers⟩ "/srv" (RE.lit "/a"),
   C8_static_noop.2 "/srv" ⟨[("id", "42")]⟩ (by decide)⟩

/-! ## Parameter population (claim C4) -/

/-- Folding the population step over pairs none of which derive a given
key leaves the lookup of that key unchanged. -/
theorem populate_foldl_untouched (ms : List String) :
    ∀ (l : List (Nat × String)) (p : Params) (key : String),
    (∀ iv ∈ l, paramKey iv.1 iv.2 ≠ key) →
    (l.foldl (fun p iv => (p.Set (paramKey iv.1 iv.2) (ms.getD iv.1 "")).1) p).Get key
      = p.Get key := by
  intro l
  induction l with
  | nil => intro p key _; rfl
  | cons iv rest ih =>
    intro p key hall
    simp only [List.foldl_cons]
    rw [ih _ key (fun x hx => hall x (by simp [hx]))]
    have hne := hall iv (by simp)
    simp [Params.Set, Params.Get, lookupStr_insertStr_ne _ _ _ _ hne]

/-- The population of the store is as the code performs it: position i
of the name list, with no later position deriving the same key, ends up
holding submatch i. -/
theorem populate_get (names ms : List String) (i : Nat) (hi : i < names.length)
    (huniq : ∀ j, i < j → j < names.length →
      paramKey j (names.getD j "") ≠ paramKey i (names.getD i "")) :
    (populate names ms).Get (paramKey i (names.getD i "")) = ms.getD i "" := by
  have hlen : i < names.enum.length := by simpa using hi
  have hsplit : names.enum =
      names.enum.take i ++ (i, names[i]) :: names.enum.drop (i + 1) := by
    conv_lhs => rw [← List.take_append_drop i names.enum]
    congr 1
    rw [List.drop_eq_getElem_cons hlen]
    congr 1
    simp [List.getElem_enum]
  have hgetD : names.getD i "" = names[i] := List.getD_eq_getElem names "" hi
  unfold populate
  rw [hsplit, List.foldl_append]
  simp only [List.foldl_cons]
  rw [populate_foldl_untouched]
  · rw [hgetD]
    simp [Params.Set, Params.Get]
  · intro iv hiv
    obtain ⟨m, hm, hval⟩ := List.mem_iff_getElem.mp hiv
    have hmm : i + 1 + m < names.enum.length := by
      have := hm
      simp only [List.length_drop] at this
      omega
    have hj : i + 1 + m < names.length := by simpa using hmm
    have : iv = (i + 1 + m, names[i + 1 + m]) := by
      rw [← hval]
      rw [List.getElem_drop]
      simp [List.getElem_enum]
    subst this
    have h2 := huniq (i + 1 + m) (by omega) hj
    rw [List.getD_eq_getElem names "" hj] at h2
    simpa using h2

/-- The pattern of the C4 round-trip example, with its inner anchors as
written in the spec (Add adds a second pair of anchors on top). -/
def usersPat : RE :=
  .seq .caret (.seq (RE.lit "/users/") (.seq (.group 1 "id" (RE.plus digitCls)) .dollar))

/-- The example route of claim C4. -/
def usersRoute : Route := ⟨"GET", compile usersPat, 3, false⟩

/-- Claim C4: when a route is dispatched the store is populated once
from the match, each capture group index (the whole-match group 0
included) keyed by the group name when non-empty and by its decimal
index otherwise, holding the matched substring, later groups winning on
key collisions; in particular dispatching /users/42 against the pattern
/users/(?P<id>[0-9]+) stores id mapped to 42 and 0 mapped to
/users/42. -/
theorem C4_param_population :
    (∀ (names ms : List String) (i : Nat), i < names.length →
      (∀ j, i < j → j < names.length →
        paramKey j (names.getD j "") ≠ paramKey i (names.getD i "")) →
      (populate names ms).Get (paramKey i (names.getD i "")) = ms.getD i "")
    ∧ handlerRun defaultHandlers ⟨"GET", "/users/42"⟩ hfNone [usersRoute] =
        ([.handlerCall 0 3 ⟨[("0", "/users/42"), ("id", "42")]⟩], none)
    ∧ (populate usersRoute.regex.names ["/users/42", "42"]).Get "id" = "42"
    ∧ (populate usersRoute.regex.names ["/users/42", "42"]).Get "0" = "/users/42" :=
  ⟨populate_get, by decide, by decide, by decide⟩

/-- Witness for C4 at the name list of the example pattern. -/
theorem C4_witness :
    (populate ["", "id"] ["/users/42", "42"]).Get (paramKey 1 "id") = "42" :=
  C4_param_population.1 ["", "id"] ["/users/42", "42"] 1 (by decide)
    (by intro j h1 h2; simp at h2; omega)

/-! ## Anchoring (claim C6) -/

/-- Postcondition transfer for the matcher: any value a successful
match attempt returns was produced by its continuation. -/
theorem mAt_post (s : List Char) (P : MRes → Prop) (re : RE) :
    ∀ (fuel pos : Nat) (caps : Caps) (k : Nat → Caps → Option MRes),
    (∀ p c r, k p c = some r → P r) →
    ∀ r, mAt s fuel re pos caps k = some r → P r := by
  induction re with
  | eps =>
    intro fuel pos caps k hk r h
    cases fuel with
    | zero => simp [mAt] at h
    | succ f => simp only [mAt] at h; exact hk _ _ _ h
  | char c =>
    intro fuel pos caps k hk r h
    cases fuel with
    | zero => simp [mAt] at h
    | succ f =>
      simp only [mAt] at h
      cases hs : s[pos]? with
      | none => rw [hs] at h; simp at h
      | some c' =>
        rw [hs] at h
        dsimp only at h
        by_cases hc : c' = c
        · rw [if_pos hc] at h; exact hk _ _ _ h
        · rw [if_neg hc] at h; simp at h
  | any =>
    intro fuel pos caps k hk r h
    cases fuel with
    | zero => simp [mAt] at h
    | succ f =>
      simp only [mAt] at h
      cases hs : s[pos]? with
      | none => rw [hs] at h; simp at h
      | some c' =>
        rw [hs] at h
        dsimp only at h
        by_cases hc : c' = '\n'
        · rw [if_pos hc] at h; simp at h
        · rw [if_neg hc] at h; exact hk _ _ _ h
  | cls cs neg =>
    intro fuel pos caps k hk r h
    cases fuel with
    | zero => simp [mAt] at h
    | succ f =>
      simp only [mAt] at h
      cases hs : s[pos]? with
      | none => rw [hs] at h; simp at h
      | some c' =>
        rw [hs] at h
        dsimp only at h
        by_cases hc : (cs.contains c' != neg) = true
        · rw [if_pos hc] at h; exact hk _ _ _ h
        · rw [if_neg hc] at h; simp at h
  | caret =>
    intro fuel pos caps k hk r h
    cases fuel with
    | zero => simp [mAt] at h
    | succ f =>
      simp only [mAt] at h
      by_cases hp : pos = 0
      · rw [if_pos hp] at h; exact hk _ _ _ h
      · rw [if_neg hp] at h; simp at h
  | dollar =>
    intro fuel pos caps k hk r h
    cases fuel with
    | zero => simp [mAt] at h
    | succ f =>
      simp only [mAt] at h
      by_cases hp : pos = s.length
      · rw [if_pos hp] at h; exact hk _ _ _ h
      · rw [if_neg hp] at h; simp at h
  | seq a b iha ihb =>
    intro fuel pos caps k hk r h
    cases fuel with
    | zero => simp [mAt] at h
    | succ f =>
      simp only [mAt] at h
      exact iha f pos caps _ (fun p c r' h' => ihb f p c k hk r' h') r h
  | alt a b iha ihb =>
    intro fuel pos caps k hk r h
    cases fuel with
    | zero => simp [mAt] at h
    | succ f =>
      simp only [mAt] at h
      cases h1 : mAt s f a pos caps k with
      | some v =>
        rw [h1] at h
        simp only [Option.orElse, Option.some.injEq] at h
        subst h
        exact iha f pos caps k hk _ h1
      | none =>
        rw [h1] at h
        simp only [Option.orElse] at h
        exact ihb f pos caps k hk r h
  | group i nm a iha =>
    intro fuel pos caps k hk r h
    cases fuel with
    | zero => simp [mAt] at h
    | succ f =>
      simp only [mAt] at h
      exact iha f pos caps _ (fun p c r' h' => hk _ _ _ h') r h
  | star a iha =>
    intro fuel
    induction fuel with
    | zero => intro pos caps k hk r h; simp [mAt] at h
    | succ f ihf =>
      intro pos caps k hk r h
      simp only [mAt] at h
      cases h1 : mAt s f a pos caps
          (fun pos' caps' => if pos < pos' then mAt s f (.star a) pos' caps' k else none) with
      | some v =>
        rw [h1] at h
        simp only [Option.orElse, Option.some.injEq] at h
        subst h
        refine iha f pos caps _ ?_ _ h1
        intro p c r' h'
        by_cases hlt : pos < p
        · rw [if_pos hlt] at h'
          exact ihf p c k hk r' h'
        · rw [if_neg hlt] at h'
          simp at h'
      | none =>
        rw [h1] at h
        simp only [Option.orElse] at h
        exact hk _ _ _ h

/-- A successful match attempt of a pattern that begins with the caret
anchor can only start at offset zero. -/
theorem mAt_seq_caret_pos (s : List Char) (r : RE) (fuel pos : Nat) (caps : Caps)
    (k : Nat → Caps → Option MRes) (x : MRes)
    (h : mAt s fuel (.seq .caret r) pos caps k = some x) : pos = 0 := by
  cases fuel with
  | zero => simp [mAt] at h
  | succ f =>
    simp only [mAt] at h
    cases f with
    | zero => simp [mAt] at h
    | succ g =>
      simp only [mAt] at h
      by_cases hp : pos = 0
      · exact hp
      · rw [if_neg hp] at h; simp at h

/-- A successful attempt of a pattern anchored on both ends at the
concatenation level spans the whole subject: it starts at offset zero
and ends at its length. -/
theorem mAt_anchored_full (s : List Char) (p : RE) (fuel pos : Nat) (caps0 : Caps)
    (e : Nat) (caps : Caps)
    (h : mAt s fuel (.seq (.seq .caret p) .dollar) pos caps0
      (fun e c => some (e, c)) = some (e, caps)) :
    pos = 0 ∧ e = s.length := by
  cases fuel with
  | zero => simp [mAt] at h
  | succ f =>
    simp only [mAt] at h
    refine ⟨mAt_seq_caret_pos s p f pos caps0 _ _ h, ?_⟩
    have := mAt_post s (fun r => r.1 = s.length) (.seq .caret p) f pos caps0
      (fun p' c' => mAt s f .dollar p' c' (fun e c => some (e, c)))
      (fun p' c' r hr => by
        cases f with
        | zero => simp [mAt] at hr
        | succ g =>
          simp only [mAt] at hr
          by_cases hd : p' = s.length
          · rw [if_pos hd] at hr
            injection hr with hr'
            rw [← hr']
            exact hd
          · rw [if_neg hd] at hr; simp at hr)
      (e, caps) h
    exact this

/-- Claim C6 counterexample: registering the pattern a|b, Add compiles
the string made of caret, a|b and dollar, which the parser reads as the
alternation of caret-a and b-dollar; on the path /xb the compiled
pattern reports the match b, a proper suffix of the path, and the route
is dispatched on that partial match — the router does perform partial
matching for this registrable pattern. -/
theorem C6_counterexample :
    (compile (.alt (.char 'a') (.char 'b'))).find "/xb" = some ["b"]
    ∧ handlerRun defaultHandlers ⟨"GET", "/xb"⟩ hfNone
        [⟨"GET", compile (.alt (.char 'a') (.char 'b')), 9, false⟩] =
      ([.handlerCall 0 9 ⟨[("0", "b")]⟩], none) := by
  decide

/-- Claim C6 amended: Add stores the string-level parse of the pattern
between the two anchors, in which the caret attaches to the first
top-level alternative and the dollar to the last; whenever the
registered pattern is NOT a top-level alternation (and lies in the
modelled flag-free fragment), the compiled pattern is anchored on both
ends and any successful find spans the entire request path, so for
such patterns the router never treats a partial match as a route hit.
For a top-level alternation the anchors do not protect the middle and
a proper substring of the path can match (see the counterexample). -/
theorem C6_anchor_parse_full_match :
    (∀ (rr : RegRouter) (m : String) (p : RE) (h : Nat) (c : Bool),
      (rr.Add m p h c).Routes =
        rr.Routes ++ [⟨goToUpper m, ⟨anchorLast (anchorFirst p)⟩, h, c⟩])
    ∧ (∀ p : RE, p.isAlt = false → compile p = ⟨.seq (.seq .caret p) .dollar⟩)
    ∧ (∀ (p : RE) (str : String) (ms : List String), p.isAlt = false →
      (compile p).find str = some ms → ms.getD 0 "" = str) := by
  have hshape : ∀ p : RE, p.isAlt = false → compile p = ⟨.seq (.seq .caret p) .dollar⟩ := by
    intro p hp
    cases p <;> simp_all [RE.isAlt, compile, anchorFirst, anchorLast]
  refine ⟨fun rr m p h c => rfl, hshape, ?_⟩
  intro p str ms hp h
  rw [hshape p hp] at h
  simp only [Rgx.find] at h
  obtain ⟨pos, hmem, hpos⟩ := List.exists_of_findSome?_eq_some h
  obtain ⟨⟨e, caps⟩, hm, hbuild⟩ := Option.map_eq_some'.mp hpos
  obtain ⟨hp0, he⟩ := mAt_anchored_full str.toList p _ pos [] e caps hm
  subst hp0
  subst he
  rw [← hbuild]
  simp only [buildMatches, List.getD_cons_zero]
  obtain ⟨data⟩ := str
  simp [strSlice, String.length]

/-- Witness for C6: the alternation-free literal pattern /a matched
against the path /a reports the whole path as the whole-match entry. -/
theorem C6_witness :
    (compile litA).find "/a" = some ["/a"] ∧ (["/a"] : List String).getD 0 "" = "/a" :=
  ⟨by decide, C6_anchor_parse_full_match.2.2 litA "/a" ["/a"] (by decide) (by decide)⟩

end Regrouter

